import Mathlib

/-!
Verification of the LLM inference simulator core
(`src/simulator/{request,engine,batcher,load_generator,metrics}.py`).

Shallow embedding conventions:
* Python floats modelling simulated time / durations become `ℚ`.
* Token counts, chunk counts, slot indices become `ℕ`.
* Python `Optional[float]` becomes `Option ℚ`.
* Python object identity is modelled by a ghost `tag : ℕ` on each request,
  assigned from a fresh counter when a load generator creates the request
  (replacing the string `id` field, which is only used for display).
* The `np.random.normal` draw in `LoadGeneratorNormalOutputLength.get_request`
  is modelled by an injected sample stream `rand : ℕ → ℚ` consumed at index
  `randIdx` (the deterministic `std = 0` case is the constant stream).
* The `LoadGenerator` and `Batcher` families are the closed sets of concrete
  policies the repository defines, so a run of `Engine.run` is parameterised
  by a `LoadGenKind` and a `BatcherKind`.
-/

namespace Sim

/-- Embedding of `Request` / `ChunkedContextRequest`
(`src/simulator/request.py`).  The two Python classes are merged into one
structure discriminated by `isChunked` (`ChunkedContextRequest` adds the two
chunk fields and overrides `tick` / `get_current_duration`; it inherits
`is_in_prefill`, `get_slot_state_at` and `get_current_latency_at` from
`Request`).  The string `id` field is replaced by the ghost `tag`. -/
structure Request where
  tag : ℕ
  prefill_time : ℚ := 2
  itl : ℚ := 1
  target_output_len_tokens : ℕ := 4
  added_to_queue_at : Option ℚ := none
  started_at : Option ℚ := none
  tokens_generated : ℕ := 0
  isChunked : Bool := false
  total_prefill_chunks : ℕ := 4
  prefill_chunks_completed : ℕ := 1
  deriving Repr, DecidableEq

namespace Request

/-- `Request.is_in_prefill`: `self.tokens_generated == 0`.
`ChunkedContextRequest` does not override this method, so the same test
applies to chunked requests. -/
def is_in_prefill (r : Request) : Bool :=
  r.tokens_generated == 0

/-- `Request.tick` / `ChunkedContextRequest.tick`.  The base class increments
`tokens_generated`; the chunked override first consumes prefill chunks while
`prefill_chunks_completed < total_prefill_chunks`. -/
def tick (r : Request) : Request :=
  if r.isChunked then
    if r.prefill_chunks_completed < r.total_prefill_chunks then
      { r with prefill_chunks_completed := r.prefill_chunks_completed + 1 }
    else
      { r with tokens_generated := r.tokens_generated + 1 }
  else
    { r with tokens_generated := r.tokens_generated + 1 }

/-- `Request.get_current_duration` / the `ChunkedContextRequest` override:
while in prefill the base class returns `prefill_time`, the chunked class
returns `prefill_time / total_prefill_chunks`; otherwise both return `itl`. -/
def get_current_duration (r : Request) : ℚ :=
  if r.is_in_prefill then
    if r.isChunked then r.prefill_time / (r.total_prefill_chunks : ℚ)
    else r.prefill_time
  else
    r.itl

/-- `Request.get_current_latency_at`.  The Python method asserts
`added_to_queue_at is not None` and returns
`current_time - added_to_queue_at`; the assertion failure is modelled as
`none`, and the (unmodified) receiver is returned alongside the value to make
the frame condition of the method explicit. -/
def get_current_latency_at (r : Request) (current_time : ℚ) :
    Option (ℚ × Request) :=
  r.added_to_queue_at.map (fun a => (current_time - a, r))

end Request

/-- Embedding of the `Engine` state (`src/simulator/engine.py`) together
with the pieces of mutable collaborator state the run threads through it:
* `current_batch` is the Python dict `slot index -> Request`, kept in
  insertion order with (by construction) distinct keys;
* `e2e_latency` is `Metrics.e2e_latency`, ghost-enriched: each entry keeps
  the snapshot of the recorded request next to the `(time, value)` pair the
  Python code stores (the other metric lists are not needed by any claim);
* `lastGenerationTime` hosts `RequestRateLoadGenerator.last_generation_time`
  (also written by `ConcurrentLoadGenerator.generate_load`);
* `nextTag`, `rand`, `randIdx` are the ghost identity counter and the
  injected normal-sample stream described in the header. -/
@[ext]
structure EngineState where
  maxBatchSize : ℕ
  queue : List Request
  currentBatch : List (ℕ × Request)
  currentTime : ℚ
  e2e_latency : List (Request × ℚ × ℚ)
  lastGenerationTime : ℚ
  nextTag : ℕ
  rand : ℕ → ℚ
  randIdx : ℕ

/-- `Engine.get_occupied_slots`: the set of keys of `current_batch`
(`set(...)`, hence deduplicated). -/
def get_occupied_slots (s : EngineState) : List ℕ :=
  (s.currentBatch.map Prod.fst).dedup

/-- `engine.get_all_slots() - engine.get_occupied_slots()`, as iterated by the
batchers: CPython iterates a set of small ints in ascending order, which the
filtered `range` reproduces. -/
def get_empty_slots (s : EngineState) : List ℕ :=
  (List.range s.maxBatchSize).filter
    (fun sl => !((s.currentBatch.map Prod.fst).contains sl))

/-- `Engine.get_prefilling_requests`. -/
def get_prefilling_requests (s : EngineState) : List Request :=
  (s.currentBatch.map Prod.snd).filter Request.is_in_prefill

/-- `Engine.get_decoding_requests`. -/
def get_decoding_requests (s : EngineState) : List Request :=
  (s.currentBatch.map Prod.snd).filter (fun r => !r.is_in_prefill)

/-- Python's `max(l) if l else 0` over a list of floats. -/
def maxOr0 (l : List ℚ) : ℚ :=
  match l with
  | [] => 0
  | x :: xs => xs.foldl max x

/-- `Engine.get_current_batch_duration`: `max(prefill_time, itl_time, 1.0)`
where `prefill_time` sums `get_current_duration()` over the prefilling
requests and `itl_time` is `max(itl over decoding requests)` or `0`. -/
def get_current_batch_duration (s : EngineState) : ℚ :=
  max (max (((get_prefilling_requests s).map Request.get_current_duration).sum)
        (maxOr0 ((get_decoding_requests s).map Request.itl))) 1

/-- `Engine.assign_request_to_slot`: stamps `started_at = current_time` and
stores the request under a (fresh) dict key, i.e. appends in insertion
order. -/
def assign_request_to_slot (s : EngineState) (r : Request) (slot : ℕ) :
    EngineState :=
  { s with currentBatch :=
      s.currentBatch ++ [(slot, { r with started_at := some s.currentTime })] }

/-- The slot-filling loop shared by the base `Batcher.add_requests` and
`IFBatcher.add_requests`: for each candidate slot, stop if the queue is
empty, otherwise pop the queue head and assign it. -/
def fillSlots : EngineState → List ℕ → EngineState
  | s, [] => s
  | s, slot :: rest =>
    match s.queue with
    | [] => s
    | r :: q => fillSlots (assign_request_to_slot { s with queue := q } r slot) rest

/-- The closed family of batching policies (`src/simulator/batcher.py`). -/
inductive BatcherKind
  | static
  | ifb
  | ifbOnePrefill
  deriving Repr, DecidableEq

/-- `Batcher.add_requests` and its overrides:
* `static` (base `Batcher` / `StaticBatcher`): returns unless no slot is
  occupied, then fills from `get_all_slots()`;
* `ifb` (`IFBatcher`): fills every currently-empty slot;
* `ifbOnePrefill` (`IFBatcherWithOnePrefillOnly`): returns if any batch
  request is in prefill, otherwise assigns at most one request (the loop
  `break`s after the first assignment). -/
def add_requests (b : BatcherKind) (s : EngineState) : EngineState :=
  match b with
  | .static =>
      if get_occupied_slots s ≠ [] then s
      else fillSlots s (List.range s.maxBatchSize)
  | .ifb => fillSlots s (get_empty_slots s)
  | .ifbOnePrefill =>
      if get_prefilling_requests s ≠ [] then s
      else
        match get_empty_slots s, s.queue with
        | slot :: _, r :: q =>
            assign_request_to_slot { s with queue := q } r slot
        | _, _ => s

/-- The per-generator request-cost parameters
(`prefill_time`, `itl`, `total_prefill_chunks`).  The
`target_output_len_tokens` mean and `target_output_len_std` enter only
through the injected sample stream: the drawn value
`np.random.normal(mean, std)` is read off `rand`. -/
structure GenParams where
  prefill_time : ℚ := 2
  itl : ℚ := 1
  total_prefill_chunks : ℕ := 1
  deriving Repr, DecidableEq

/-- `int(max(np.random.normal(mean, std), 1))` for the drawn sample:
`max(sample, 1) ≥ 1`, and `int()` truncates, i.e. floors, a non-negative
float. -/
def effTarget (sample : ℚ) : ℕ :=
  (⌊max sample 1⌋).toNat

/-- `LoadGeneratorNormalOutputLength.get_request`: builds a fresh
`ChunkedContextRequest` with `added_to_queue_at = engine.current_time` and
the perturbed output length, consuming one sample and one ghost tag. -/
def get_request (p : GenParams) (s : EngineState) : Request × EngineState :=
  ({ tag := s.nextTag
     prefill_time := p.prefill_time
     itl := p.itl
     target_output_len_tokens := effTarget (s.rand s.randIdx)
     added_to_queue_at := some s.currentTime
     started_at := none
     tokens_generated := 0
     isChunked := true
     total_prefill_chunks := p.total_prefill_chunks
     prefill_chunks_completed := 1 },
   { s with nextTag := s.nextTag + 1, randIdx := s.randIdx + 1 })

/-- `LoadGenerator.add_n_requests_to_queue`: `for i in range(n)` append a
fresh request (so a non-positive Python argument appends nothing, which the
callers exploit — the `ℕ` argument is produced with `Int.toNat`). -/
def add_n_requests_to_queue (p : GenParams) : EngineState → ℕ → EngineState
  | s, 0 => s
  | s, n + 1 =>
    let rs := get_request p s
    add_n_requests_to_queue p { rs.2 with queue := rs.2.queue ++ [rs.1] } n

/-- The closed family of load-generation policies
(`src/simulator/load_generator.py`): `BatchLoadGenerator`,
`ConcurrentLoadGenerator` and `RequestRateLoadGenerator`. -/
inductive LoadGenKind
  | batchGen (initial_batch : ℕ)
  | concurrent (target_concurrency : ℕ)
  | requestRate (request_rate : ℚ)
  deriving Repr, DecidableEq

/-- `generate_load` of the three concrete load generators:
* `batchGen`: emits `initial_batch` requests unless `current_time > 0`;
* `concurrent`: emits `target_concurrency - occupied - queued` requests
  (clamped at `0` by `range`) and records `last_generation_time`;
* `requestRate`: emits `current_time // (1/rate) - last // (1/rate)`
  requests (`int(...)` + `range` clamp negatives to `0`) and advances
  `last_generation_time` to `current_time`. -/
def generate_load (k : LoadGenKind) (p : GenParams) (s : EngineState) :
    EngineState :=
  match k with
  | .batchGen ib =>
      if 0 < s.currentTime then s else add_n_requests_to_queue p s ib
  | .concurrent tc =>
      let need : ℤ :=
        (tc : ℤ) - (get_occupied_slots s).length - s.queue.length
      let s2 := add_n_requests_to_queue p s need.toNat
      { s2 with lastGenerationTime := s2.currentTime }
  | .requestRate rate =>
      let generate_every := 1 / rate
      let already : ℤ := ⌊s.lastGenerationTime / generate_every⌋
      let finalGen : ℤ := ⌊s.currentTime / generate_every⌋
      let s2 := add_n_requests_to_queue p s (finalGen - already).toNat
      { s2 with lastGenerationTime := s2.currentTime }

/-- Step phase 1 of `Engine.run`: `for req in current_batch.values(): req.tick()`. -/
def tickBatch (s : EngineState) : EngineState :=
  { s with currentBatch := s.currentBatch.map (fun pr => (pr.1, pr.2.tick)) }

/-- Step phase 2: `Metrics.track_previous_batch` (`src/simulator/metrics.py`),
restricted to the `e2e_latency` log (the `ttft`/`osl` lists are recorded the
same way but are not referenced by any claim): for each batch request with
`tokens_generated == target_output_len_tokens`, append
`(current_time, get_current_latency_at(current_time))`.  The method's
assertion that `added_to_queue_at` is set is discharged by the run invariant;
`getD 0` stands for the asserted dereference. -/
def track_previous_batch (s : EngineState) : EngineState :=
  { s with e2e_latency := s.e2e_latency ++
      ((s.currentBatch.filter
          (fun pr => pr.2.tokens_generated == pr.2.target_output_len_tokens)).map
        (fun pr =>
          (pr.2, s.currentTime, s.currentTime - pr.2.added_to_queue_at.getD 0))) }

/-- Step phase 3: the retirement dict comprehension keeps only requests with
`tokens_generated < target_output_len_tokens`. -/
def retireCompleted (s : EngineState) : EngineState :=
  { s with currentBatch := (s.currentBatch.filter
      (fun pr => decide (pr.2.tokens_generated < pr.2.target_output_len_tokens))) }

/-- Phases 1-5 of one iteration of `Engine.run`'s loop body (everything
before the step-duration bookkeeping; `track_current_batch` only appends to
metric lists no claim mentions). -/
def stepBody (k : LoadGenKind) (p : GenParams) (b : BatcherKind)
    (s : EngineState) : EngineState :=
  add_requests b (generate_load k p (retireCompleted (track_previous_batch (tickBatch s))))

/-- One full iteration of `Engine.run`'s loop body: phases 1-5 followed by
`current_time += get_current_batch_duration()`. -/
def step (k : LoadGenKind) (p : GenParams) (b : BatcherKind)
    (s : EngineState) : EngineState :=
  let s5 := stepBody k p b s
  { s5 with currentTime := s5.currentTime + get_current_batch_duration s5 }

/-- `Engine.run(time_limit)`: `while current_time < time_limit` execute the
loop body.  The loop is given explicit fuel; claim C9 shows
`⌈time_limit - current_time⌉₊` fuel always suffices. -/
def run (k : LoadGenKind) (p : GenParams) (b : BatcherKind) (limit : ℚ) :
    ℕ → EngineState → EngineState
  | 0, s => s
  | fuel + 1, s =>
    if s.currentTime < limit then run k p b limit fuel (step k p b s) else s

/-- `Engine.__init__`: empty queue and batch, `current_time = 0`, fresh
metrics; the ghost counters start at `0` and the sample stream is injected. -/
def initState (maxBatchSize : ℕ) (rand : ℕ → ℚ) : EngineState :=
  { maxBatchSize := maxBatchSize
    queue := []
    currentBatch := []
    currentTime := 0
    e2e_latency := []
    lastGenerationTime := 0
    nextTag := 0
    rand := rand
    randIdx := 0 }

/-- The ghost tags of every request the engine currently references:
queued, batched, or recorded in the end-to-end latency log. -/
def tagsOf (s : EngineState) : List ℕ :=
  s.queue.map Request.tag ++ s.currentBatch.map (fun pr => pr.2.tag)
    ++ s.e2e_latency.map (fun e => e.1.tag)

/-- What every entry of the (ghost-enriched) end-to-end latency log
satisfies: it snapshots a request exactly at completion
(`tokens_generated = target_output_len_tokens`) and stores
`recording time - added_to_queue_at` as the sample value. -/
def goodEntry (e : Request × ℚ × ℚ) : Prop :=
  e.1.tokens_generated = e.1.target_output_len_tokens
  ∧ ∃ a, e.1.added_to_queue_at = some a ∧ e.2.2 = e.2.1 - a

/-- The run invariant shared by the trace claims:
* every batched request is incomplete and was enqueued;
* every queued request is fresh (no tokens yet), has a positive target (the
  generators floor the perturbed output length at `1`) and was enqueued;
* ghost tags are unique across queue, batch and latency log, all below the
  tag counter, and every tag ever allocated is still accounted for;
* every latency-log entry is a `goodEntry`. -/
def Inv (s : EngineState) : Prop :=
  (∀ pr ∈ s.currentBatch,
      pr.2.tokens_generated < pr.2.target_output_len_tokens
      ∧ (pr.2.added_to_queue_at).isSome = true)
  ∧ (∀ r ∈ s.queue,
      r.tokens_generated = 0 ∧ 1 ≤ r.target_output_len_tokens
      ∧ (r.added_to_queue_at).isSome = true)
  ∧ (tagsOf s).Nodup
  ∧ (∀ t ∈ tagsOf s, t < s.nextTag)
  ∧ (∀ t, t < s.nextTag → t ∈ tagsOf s)
  ∧ (∀ e ∈ s.e2e_latency, goodEntry e)

/-!  Embedding for claim C8: `DisaggregatedEngine` and the aliasing
behaviour of its `queue` property.  Python list objects are modelled by an
explicit store `heap : ℕ → List Request` addressed by reference, so that
"`queue` builds a fresh list" and "appending to it does not touch
`prefill_queue` / `decode_queue`" are real statements about the model. -/

/-- `DisaggregatedEngine` state (`src/simulator/engine.py`): the two queues
live in the heap (they are Python list objects that the `queue` property
concatenates into a fresh object); slots and the completed list are embedded
directly.  `nextRef` is the allocator for fresh list objects and `nextTag`
the ghost request-identity counter. -/
structure DisaggState where
  maxPrefillWorkers : ℕ
  maxDecodeWorkers : ℕ
  heap : ℕ → List Request
  prefillQueueRef : ℕ
  decodeQueueRef : ℕ
  nextRef : ℕ
  prefill_slots : List (ℕ × Request)
  decode_slots : List (ℕ × Request)
  completed_requests : List Request
  currentTime : ℚ
  nextTag : ℕ

/-- `self.prefill_queue` as a list of requests. -/
def DisaggState.prefill_queue (s : DisaggState) : List Request :=
  s.heap s.prefillQueueRef

/-- `self.decode_queue` as a list of requests. -/
def DisaggState.decode_queue (s : DisaggState) : List Request :=
  s.heap s.decodeQueueRef

/-- The `queue` property of `DisaggregatedEngine`:
`return self.prefill_queue + self.decode_queue` — list `+` allocates a fresh
list object holding the concatenation and returns (a reference to) it. -/
def DisaggState.queueProperty (s : DisaggState) : ℕ × DisaggState :=
  (s.nextRef,
   { s with
      heap := Function.update s.heap s.nextRef (s.prefill_queue ++ s.decode_queue)
      nextRef := s.nextRef + 1 })

/-- All requests the disaggregated engine owns (both queues, both slot
pools, and the completed list). -/
def DisaggState.ownedRequests (s : DisaggState) : List Request :=
  s.prefill_queue ++ s.decode_queue ++ s.prefill_slots.map Prod.snd
    ++ s.decode_slots.map Prod.snd ++ s.completed_requests

/-- The base `LoadGenerator.generate_load` applied to a
`DisaggregatedEngine`: `self.engine.queue.append(self.get_request(""))`
reads the `queue` property — a freshly allocated list — and appends the new
request (built by the base `get_request`, whose output length is the plain
`target_output_len_tokens` parameter) to that fresh list. -/
def disaggGenerateLoad (p : GenParams) (target : ℕ) (s : DisaggState) :
    DisaggState :=
  let rs := s.queueProperty
  let req : Request :=
    { tag := s.nextTag
      prefill_time := p.prefill_time
      itl := p.itl
      target_output_len_tokens := target
      added_to_queue_at := some s.currentTime
      started_at := none
      tokens_generated := 0
      isChunked := true
      total_prefill_chunks := p.total_prefill_chunks
      prefill_chunks_completed := 1 }
  { rs.2 with
      heap := Function.update rs.2.heap rs.1 (rs.2.heap rs.1 ++ [req])
      nextTag := rs.2.nextTag + 1 }

/-- `RequestRateLoadGenerator.generate_load` driven through a sequence of
call times: before each call the engine's clock is set to the next time in
the list (as `Engine.run` would have advanced it). -/
def rrRun (rate : ℚ) (p : GenParams) (ts : List ℚ) (s : EngineState) :
    EngineState :=
  ts.foldl (fun st t => generate_load (.requestRate rate) p { st with currentTime := t }) s

/-! Concrete inputs used by counterexamples and witnesses. -/

/-- Chunked request reached after one `tick` from a fresh
`ChunkedContextRequest(prefill_time=6, total_prefill_chunks=2)`: both chunks
are accounted for, yet no token has been generated. -/
def c1Request : Request :=
  { tag := 0, prefill_time := 6, itl := 1, target_output_len_tokens := 4,
    added_to_queue_at := some 0, started_at := some 0, tokens_generated := 0,
    isChunked := true, total_prefill_chunks := 2, prefill_chunks_completed := 2 }

/-- A freshly generated (still queued) request. -/
def exQueued (tag : ℕ) : Request :=
  { tag := tag, prefill_time := 2, itl := 1, target_output_len_tokens := 4,
    added_to_queue_at := some 0, started_at := none, tokens_generated := 0,
    isChunked := true, total_prefill_chunks := 1, prefill_chunks_completed := 1 }

/-- A request mid-decode (three of four tokens generated, `itl = 5`). -/
def exDecoding : Request :=
  { tag := 2, prefill_time := 2, itl := 5, target_output_len_tokens := 4,
    added_to_queue_at := some 0, started_at := some 0, tokens_generated := 3,
    isChunked := true, total_prefill_chunks := 1, prefill_chunks_completed := 1 }

/-- Engine state with one prefilling and one decoding slot and one queued
request (witness state for C2 and C4). -/
def c2State : EngineState :=
  { maxBatchSize := 3, queue := [exQueued 3],
    currentBatch := [(0, { exQueued 0 with started_at := some 0 }), (1, exDecoding)],
    currentTime := 7, e2e_latency := [], lastGenerationTime := 0,
    nextTag := 4, rand := fun _ => 4, randIdx := 0 }

/-- Engine state already over the concurrency target: two queued requests,
no occupied slot (counterexample state for C5). -/
def c5State : EngineState :=
  { maxBatchSize := 1, queue := [exQueued 0, exQueued 1],
    currentBatch := [], currentTime := 3, e2e_latency := [],
    lastGenerationTime := 0, nextTag := 2, rand := fun _ => 4, randIdx := 0 }

/-- Generator parameters used by the concrete two-step run of the C3/C7
witnesses (`prefill_time=2, itl=1, total_prefill_chunks=1`). -/
def cParams : GenParams :=
  { prefill_time := 2, itl := 1, total_prefill_chunks := 1 }

/-- The single request of the C3/C7 witness run (constant sample `1`, so
`target_output_len_tokens = 1`), as it stands right after assignment. -/
def cReq0 : Request :=
  { tag := 0, prefill_time := 2, itl := 1, target_output_len_tokens := 1,
    added_to_queue_at := some 0, started_at := some 0, tokens_generated := 0,
    isChunked := true, total_prefill_chunks := 1, prefill_chunks_completed := 1 }

/-- The engine state reached after one step of the C3/C7 witness run:
`cReq0` occupies slot `0` and the clock advanced by its one-chunk prefill
duration `2`. -/
def c3State1 : EngineState :=
  { maxBatchSize := 1, queue := [], currentBatch := [(0, cReq0)], currentTime := 2,
    e2e_latency := [], lastGenerationTime := 0, nextTag := 1, rand := fun _ => 1,
    randIdx := 1 }

/-- Disaggregated-engine state with one request in each queue, one in a
decode slot, and references `0` / `1` for the two queue list objects
(witness state for C8). -/
def c8State : DisaggState :=
  { maxPrefillWorkers := 1, maxDecodeWorkers := 1,
    heap := fun r => if r = 0 then [exQueued 0] else if r = 1 then [exQueued 1] else [],
    prefillQueueRef := 0, decodeQueueRef := 1, nextRef := 2,
    prefill_slots := [], decode_slots := [(1, exDecoding)],
    completed_requests := [], currentTime := 3, nextTag := 4 }

end Sim

open Sim

/-! Helper lemmas about the request state machine. -/

/-- Fields `tick` never touches, and the one-unit progress bound. -/
theorem tick_facts (r : Sim.Request) :
    r.tick.tag = r.tag
    ∧ r.tick.target_output_len_tokens = r.target_output_len_tokens
    ∧ r.tick.added_to_queue_at = r.added_to_queue_at
    ∧ r.tokens_generated ≤ r.tick.tokens_generated
    ∧ r.tick.tokens_generated ≤ r.tokens_generated + 1 := by
  unfold Sim.Request.tick
  split
  · split <;> simp
  · simp

/-- Folding `max` over a list bounds the seed and every element. -/
theorem foldl_max_bounds (l : List ℚ) :
    ∀ a : ℚ, a ≤ l.foldl max a ∧ ∀ x ∈ l, x ≤ l.foldl max a := by
  induction l with
  | nil => intro a; simp
  | cons y ys ih =>
    intro a
    simp only [List.foldl_cons]
    refine ⟨le_trans (le_max_left a y) (ih (max a y)).1, ?_⟩
    intro x hx
    rcases List.mem_cons.mp hx with rfl | h
    · exact le_trans (le_max_right a x) (ih (max a x)).1
    · exact (ih (max a y)).2 x h

/-- Folding `max` over a list returns the seed or an element. -/
theorem foldl_max_mem (l : List ℚ) :
    ∀ a : ℚ, l.foldl max a = a ∨ l.foldl max a ∈ l := by
  induction l with
  | nil => intro a; simp
  | cons y ys ih =>
    intro a
    simp only [List.foldl_cons]
    rcases ih (max a y) with h | h
    · rcases max_choice a y with hm | hm
      · exact Or.inl (by rw [h, hm])
      · exact Or.inr (by rw [h, hm]; exact List.mem_cons_self y ys)
    · exact Or.inr (List.mem_cons_of_mem y h)

/-- Python's `max(l) if l else 0` bounds every element of `l`. -/
theorem le_maxOr0 (l : List ℚ) : ∀ x ∈ l, x ≤ maxOr0 l := by
  intro x hx
  match l, hx with
  | y :: ys, hx =>
    rcases List.mem_cons.mp hx with h | h
    · exact h ▸ (foldl_max_bounds ys y).1
    · exact (foldl_max_bounds ys y).2 x h

/-- Python's `max(l) if l else 0` is an element of a nonempty `l`. -/
theorem maxOr0_mem (l : List ℚ) (h : l ≠ []) : maxOr0 l ∈ l := by
  match l, h with
  | y :: ys, _ =>
    rcases foldl_max_mem ys y with h | h
    · rw [maxOr0, h]; exact List.mem_cons_self y ys
    · exact List.mem_cons_of_mem y h

/-- C1 (amended): for every `ChunkedContextRequest`, `is_in_prefill()` is the
inherited test `tokens_generated == 0`: it returns `false` iff at least one
token has been generated, and while `tokens_generated = 0` — even when
`prefill_chunks_completed` has already reached `total_prefill_chunks` —
`get_current_duration()` returns `prefill_time / total_prefill_chunks`
rather than `itl`. -/
theorem C1_chunked_in_prefill_amended (r : Sim.Request) (hc : r.isChunked = true) :
    (r.is_in_prefill = (r.tokens_generated == 0))
    ∧ (r.tokens_generated ≠ 0 → r.is_in_prefill = false
        ∧ r.get_current_duration = r.itl)
    ∧ (r.tokens_generated = 0 →
        r.is_in_prefill = true
        ∧ r.get_current_duration = r.prefill_time / (r.total_prefill_chunks : ℚ)) := by
  refine ⟨rfl, ?_, ?_⟩
  · intro h
    have hb : r.is_in_prefill = false := by
      simp [Request.is_in_prefill, h]
    exact ⟨hb, by simp [Request.get_current_duration, hb]⟩
  · intro h
    have hb : r.is_in_prefill = true := by
      simp [Request.is_in_prefill, h]
    exact ⟨hb, by simp [Request.get_current_duration, hb, hc]⟩

/-- C1, counterexample to the claim as frozen: `c1Request` has
`prefill_chunks_completed = total_prefill_chunks`, is reachable by one
`tick` from the fresh chunked request with 2 chunks, and still reports
`is_in_prefill() = true` with `get_current_duration() = prefill_time / 2 = 3`
(not `itl = 1`), because `tokens_generated` is still `0`. -/
theorem C1_counterexample :
    c1Request =
      Sim.Request.tick
        { tag := 0, prefill_time := 6, itl := 1, target_output_len_tokens := 4,
          added_to_queue_at := some 0, started_at := some 0,
          tokens_generated := 0, isChunked := true, total_prefill_chunks := 2,
          prefill_chunks_completed := 1 }
    ∧ c1Request.prefill_chunks_completed = c1Request.total_prefill_chunks
    ∧ c1Request.is_in_prefill = true
    ∧ c1Request.get_current_duration = 3
    ∧ c1Request.itl = 1 := by
  refine ⟨by decide, by decide, by decide, ?_, by decide⟩
  simp [c1Request, Request.get_current_duration, Request.is_in_prefill]
  norm_num

/-- C1 witness for the amended theorem, instantiated at `c1Request`. -/
theorem C1_witness :
    c1Request.is_in_prefill = true
    ∧ c1Request.get_current_duration
        = c1Request.prefill_time / (c1Request.total_prefill_chunks : ℚ) :=
  (C1_chunked_in_prefill_amended c1Request rfl).2.2 rfl

/-- C10: `get_current_latency_at(t)` fails (assertion) iff the request was
never enqueued (`added_to_queue_at = none`); when `added_to_queue_at = some a`
it returns `t - a` together with the receiver unchanged. -/
theorem C10_latency_fails_iff_never_enqueued (r : Sim.Request) (t : ℚ) :
    (r.get_current_latency_at t = none ↔ r.added_to_queue_at = none)
    ∧ (∀ a, r.added_to_queue_at = some a →
        r.get_current_latency_at t = some (t - a, r)) := by
  constructor
  · cases h : r.added_to_queue_at <;>
      simp [Request.get_current_latency_at, h]
  · intro a ha
    simp [Request.get_current_latency_at, ha]

/-- C10 witness: a never-enqueued request fails, an enqueued one returns the
difference and the unchanged request. -/
theorem C10_witness :
    ({ tag := 0, added_to_queue_at := none : Sim.Request }.get_current_latency_at 5
        = none)
    ∧ (c1Request.get_current_latency_at 5 = some (5 - 0, c1Request)) := by
  constructor
  · exact (C10_latency_fails_iff_never_enqueued
      { tag := 0, added_to_queue_at := none } 5).1.mpr rfl
  · exact (C10_latency_fails_iff_never_enqueued c1Request 5).2 0 rfl

/-- The perturbed output length is always at least one token
(`max(np.random.normal(...), 1)` floored by `int()`). -/
theorem one_le_effTarget (q : ℚ) : 1 ≤ effTarget q := by
  unfold effTarget
  have h1 : (1 : ℤ) ≤ ⌊max q 1⌋ := by
    apply Int.le_floor.mpr
    push_cast
    exact le_max_right q 1
  omega

/-- Full specification of `add_n_requests_to_queue`: it appends `n` fresh
requests (consecutive ghost tags, zero tokens, positive target, enqueued at
the current time) and leaves every other engine component alone. -/
theorem add_n_spec (p : Sim.GenParams) :
    ∀ (n : ℕ) (s : Sim.EngineState), ∃ new : List Sim.Request,
      (add_n_requests_to_queue p s n).queue = s.queue ++ new
      ∧ new.map Sim.Request.tag = List.range' s.nextTag n
      ∧ new.length = n
      ∧ (∀ r ∈ new, r.tokens_generated = 0 ∧ 1 ≤ r.target_output_len_tokens
          ∧ r.added_to_queue_at = some s.currentTime ∧ r.started_at = none)
      ∧ (add_n_requests_to_queue p s n).currentBatch = s.currentBatch
      ∧ (add_n_requests_to_queue p s n).currentTime = s.currentTime
      ∧ (add_n_requests_to_queue p s n).e2e_latency = s.e2e_latency
      ∧ (add_n_requests_to_queue p s n).nextTag = s.nextTag + n
      ∧ (add_n_requests_to_queue p s n).maxBatchSize = s.maxBatchSize
      ∧ (add_n_requests_to_queue p s n).lastGenerationTime = s.lastGenerationTime := by
  intro n
  induction n with
  | zero =>
    intro s
    refine ⟨[], ?_⟩
    simp [add_n_requests_to_queue]
  | succ n ih =>
    intro s
    obtain ⟨new, h1, h2, h3, h4, h5, h6, h7, h8, h9, h10⟩ :=
      ih { s with queue := s.queue ++ [(get_request p s).1],
                  nextTag := s.nextTag + 1, randIdx := s.randIdx + 1 }
    have heq : add_n_requests_to_queue p s (n + 1)
        = add_n_requests_to_queue p
            { s with queue := s.queue ++ [(get_request p s).1],
                     nextTag := s.nextTag + 1, randIdx := s.randIdx + 1 } n := rfl
    refine ⟨(get_request p s).1 :: new, ?_, ?_, ?_, ?_, ?_, ?_, ?_, ?_, ?_, ?_⟩
    · rw [heq, h1]; simp
    · rw [List.map_cons, h2]
      have : (get_request p s).1.tag = s.nextTag := rfl
      rw [this, List.range'_succ]
    · simp [h3]
    · intro r hr
      rcases List.mem_cons.mp hr with rfl | hr
    
      · exact ⟨rfl, one_le_effTarget _, rfl, rfl⟩
      · exact h4 r hr
    · rw [heq, h5]
    · rw [heq, h6]
    · rw [heq, h7]
    · rw [heq, h8]
      show s.nextTag + 1 + n = s.nextTag + (n + 1)
      omega
    · rw [heq, h9]
    · rw [heq, h10]

/-- Full specification of the slot-filling loop shared by the static and
in-flight batchers: some prefix of the queue (bounded by the number of
candidate slots) moves into the batch, each request stamped with
`started_at = current_time`, and everything else is untouched. -/
theorem fillSlots_spec :
    ∀ (slots : List ℕ) (s : Sim.EngineState), ∃ k : ℕ, ∃ pairs : List (ℕ × Sim.Request),
      k ≤ slots.length
      ∧ k ≤ s.queue.length
      ∧ (fillSlots s slots).queue = s.queue.drop k
      ∧ (fillSlots s slots).currentBatch = s.currentBatch ++ pairs
      ∧ pairs.map Prod.snd
          = (s.queue.take k).map (fun r => { r with started_at := some s.currentTime })
      ∧ (∀ pr ∈ pairs, pr.1 ∈ slots)
      ∧ (fillSlots s slots).currentTime = s.currentTime
      ∧ (fillSlots s slots).e2e_latency = s.e2e_latency
      ∧ (fillSlots s slots).nextTag = s.nextTag
      ∧ (fillSlots s slots).maxBatchSize = s.maxBatchSize
      ∧ (fillSlots s slots).lastGenerationTime = s.lastGenerationTime := by
  intro slots
  induction slots with
  | nil =>
    intro s
    refine ⟨0, [], ?_⟩
    simp [fillSlots]
  | cons slot rest ih =>
    intro s
    cases hq : s.queue with
    | nil =>
      refine ⟨0, [], ?_⟩
      simp [fillSlots, hq]
    | cons r q =>
      obtain ⟨k, pairs, hk, hkq, h1, h2, h3, h4, h5, h6, h7, h8, h9⟩ :=
        ih (assign_request_to_slot { s with queue := q } r slot)
      have heq : fillSlots s (slot :: rest)
          = fillSlots (assign_request_to_slot { s with queue := q } r slot) rest := by
        simp [fillSlots, hq]
      refine ⟨k + 1,
        (slot, { r with started_at := some s.currentTime }) :: pairs,
        by simpa using Nat.succ_le_succ hk, ?_, ?_, ?_, ?_, ?_, ?_, ?_, ?_, ?_, ?_⟩
      · have hkq2 : k ≤ q.length := by
          simpa [assign_request_to_slot] using hkq
        simpa using Nat.succ_le_succ hkq2
      · rw [heq, h1]
        simp [assign_request_to_slot]
      · rw [heq, h2]
        simp [assign_request_to_slot]
      · have h3s : List.map Prod.snd pairs
            = (List.take k q).map
                (fun r => { r with started_at := some s.currentTime }) := by
          simpa [assign_request_to_slot] using h3
        simp [List.take_succ_cons, h3s]
      · intro pr hpr
        rcases List.mem_cons.mp hpr with rfl | hpr
        · exact List.mem_cons_self _ _
        · exact List.mem_cons_of_mem _ (h4 pr hpr)
      · rw [heq, h5]; rfl
      · rw [heq, h6]; rfl
      · rw [heq, h7]; rfl
      · rw [heq, h8]; rfl
      · rw [heq, h9]; rfl

/-- Full specification of `add_requests` for every batching policy: it moves
some prefix of the queue into the batch (stamping `started_at`) and leaves
the other engine components alone. -/
theorem add_requests_spec (b : Sim.BatcherKind) (s : Sim.EngineState) :
    ∃ k : ℕ, ∃ pairs : List (ℕ × Sim.Request),
      k ≤ s.queue.length
      ∧ (add_requests b s).queue = s.queue.drop k
      ∧ (add_requests b s).currentBatch = s.currentBatch ++ pairs
      ∧ pairs.map Prod.snd
          = (s.queue.take k).map (fun r => { r with started_at := some s.currentTime })
      ∧ (add_requests b s).currentTime = s.currentTime
      ∧ (add_requests b s).e2e_latency = s.e2e_latency
      ∧ (add_requests b s).nextTag = s.nextTag
      ∧ (add_requests b s).maxBatchSize = s.maxBatchSize
      ∧ (add_requests b s).lastGenerationTime = s.lastGenerationTime := by
  cases b with
  | static =>
    by_cases hocc : get_occupied_slots s ≠ []
    · refine ⟨0, [], ?_⟩
      simp [add_requests, hocc]
    · obtain ⟨k, pairs, _, h⟩ := fillSlots_spec (List.range s.maxBatchSize) s
      refine ⟨k, pairs, h.1, ?_⟩
      have harr : add_requests .static s = fillSlots s (List.range s.maxBatchSize) := by
        simp [add_requests, hocc]
      rw [harr]
      exact ⟨h.2.1, h.2.2.1, h.2.2.2.1, h.2.2.2.2.2.1, h.2.2.2.2.2.2.1,
        h.2.2.2.2.2.2.2.1, h.2.2.2.2.2.2.2.2.1, h.2.2.2.2.2.2.2.2.2⟩
  | ifb =>
    obtain ⟨k, pairs, _, h⟩ := fillSlots_spec (get_empty_slots s) s
    refine ⟨k, pairs, h.1, ?_⟩
    have harr : add_requests .ifb s = fillSlots s (get_empty_slots s) := rfl
    rw [harr]
    exact ⟨h.2.1, h.2.2.1, h.2.2.2.1, h.2.2.2.2.2.1, h.2.2.2.2.2.2.1,
      h.2.2.2.2.2.2.2.1, h.2.2.2.2.2.2.2.2.1, h.2.2.2.2.2.2.2.2.2⟩
  | ifbOnePrefill =>
    by_cases hpre : get_prefilling_requests s ≠ []
    · refine ⟨0, [], ?_⟩
      simp [add_requests, hpre]
    · cases hes : get_empty_slots s with
      | nil =>
        refine ⟨0, [], ?_⟩
        simp [add_requests, hpre, hes]
      | cons slot restSlots =>
        cases hq : s.queue with
        | nil =>
          refine ⟨0, [], ?_⟩
          simp [add_requests, hpre, hes, hq]
        | cons r q =>
          have harr : add_requests .ifbOnePrefill s
              = assign_request_to_slot { s with queue := q } r slot := by
            simp [add_requests, hpre, hes, hq]
          refine ⟨1, [(slot, { r with started_at := some s.currentTime })], ?_⟩
          rw [harr]
          simp [assign_request_to_slot]

/-- Full specification of `generate_load` for every load-generation policy:
it appends some number of fresh requests (consecutive ghost tags, zero
tokens, positive target, enqueued now) to the queue and leaves the batch,
clock, latency log and slot count alone. -/
theorem generate_load_spec (k : Sim.LoadGenKind) (p : Sim.GenParams)
    (s : Sim.EngineState) :
    ∃ new : List Sim.Request,
      (generate_load k p s).queue = s.queue ++ new
      ∧ new.map Sim.Request.tag = List.range' s.nextTag new.length
      ∧ (∀ r ∈ new, r.tokens_generated = 0 ∧ 1 ≤ r.target_output_len_tokens
          ∧ r.added_to_queue_at = some s.currentTime ∧ r.started_at = none)
      ∧ (generate_load k p s).currentBatch = s.currentBatch
      ∧ (generate_load k p s).currentTime = s.currentTime
      ∧ (generate_load k p s).e2e_latency = s.e2e_latency
      ∧ (generate_load k p s).nextTag = s.nextTag + new.length
      ∧ (generate_load k p s).maxBatchSize = s.maxBatchSize := by
  cases k with
  | batchGen ib =>
    by_cases ht : 0 < s.currentTime
    · refine ⟨[], ?_⟩
      simp [generate_load, ht]
    · obtain ⟨new, h1, h2, h3, h4, h5, h6, h7, h8, h9, _⟩ := add_n_spec p ib s
      have harr : generate_load (.batchGen ib) p s = add_n_requests_to_queue p s ib := by
        simp [generate_load, ht]
      exact ⟨new, by rw [harr]; exact h1, by rw [h3, h2], h4, by rw [harr]; exact h5,
        by rw [harr]; exact h6, by rw [harr]; exact h7,
        by rw [harr, h8, h3], by rw [harr]; exact h9⟩
  | concurrent tc =>
    obtain ⟨new, h1, h2, h3, h4, h5, h6, h7, h8, h9, _⟩ :=
      add_n_spec p ((tc : ℤ) - (get_occupied_slots s).length - s.queue.length).toNat s
    have harr : generate_load (.concurrent tc) p s
        = { add_n_requests_to_queue p s
              ((tc : ℤ) - (get_occupied_slots s).length - s.queue.length).toNat with
            lastGenerationTime :=
              (add_n_requests_to_queue p s
                ((tc : ℤ) - (get_occupied_slots s).length - s.queue.length).toNat).currentTime } := rfl
    exact ⟨new, by rw [harr]; exact h1, by rw [h3, h2], h4, by rw [harr]; exact h5,
      by rw [harr]; exact h6, by rw [harr]; exact h7,
      by rw [harr, h3]; exact h8, by rw [harr]; exact h9⟩
  | requestRate rate =>
    obtain ⟨new, h1, h2, h3, h4, h5, h6, h7, h8, h9, _⟩ :=
      add_n_spec p (⌊s.currentTime / (1 / rate)⌋ - ⌊s.lastGenerationTime / (1 / rate)⌋).toNat s
    have harr : generate_load (.requestRate rate) p s
        = { add_n_requests_to_queue p s
              (⌊s.currentTime / (1 / rate)⌋ - ⌊s.lastGenerationTime / (1 / rate)⌋).toNat with
            lastGenerationTime :=
              (add_n_requests_to_queue p s
                (⌊s.currentTime / (1 / rate)⌋ - ⌊s.lastGenerationTime / (1 / rate)⌋).toNat).currentTime } := rfl
    exact ⟨new, by rw [harr]; exact h1, by rw [h3, h2], h4, by rw [harr]; exact h5,
      by rw [harr]; exact h6, by rw [harr]; exact h7,
      by rw [harr, h3]; exact h8, by rw [harr]; exact h9⟩

/-- C2: `get_current_batch_duration()` returns `max(S, M, 1.0)` where `S`
sums `get_current_duration()` over the prefilling batch requests and `M` is
the maximum `itl` over the decoding batch requests (`0` when none decode:
`maxOr0` is characterised as a genuine maximum below), and one iteration of
`Engine.run`'s loop adds exactly this value — computed on the post-assignment
state — to `current_time`. -/
theorem C2_batch_duration (k : Sim.LoadGenKind) (p : Sim.GenParams)
    (b : Sim.BatcherKind) (s : Sim.EngineState) :
    (get_current_batch_duration s
      = max (max (((get_prefilling_requests s).map Sim.Request.get_current_duration).sum)
          (maxOr0 ((get_decoding_requests s).map Sim.Request.itl))) 1)
    ∧ ((get_decoding_requests s).map Sim.Request.itl = []
        → maxOr0 ((get_decoding_requests s).map Sim.Request.itl) = 0)
    ∧ (∀ x ∈ (get_decoding_requests s).map Sim.Request.itl,
        x ≤ maxOr0 ((get_decoding_requests s).map Sim.Request.itl))
    ∧ ((get_decoding_requests s).map Sim.Request.itl ≠ []
        → maxOr0 ((get_decoding_requests s).map Sim.Request.itl)
            ∈ (get_decoding_requests s).map Sim.Request.itl)
    ∧ (stepBody k p b s).currentTime = s.currentTime
    ∧ (step k p b s).currentTime
        = s.currentTime + get_current_batch_duration (stepBody k p b s) := by
  have hbody : (stepBody k p b s).currentTime = s.currentTime := by
    obtain ⟨new, _, _, _, _, hgt, _, _, _⟩ :=
      generate_load_spec k p (retireCompleted (track_previous_batch (tickBatch s)))
    obtain ⟨kk, pairs, _, _, _, _, hat, _⟩ :=
      add_requests_spec b
        (generate_load k p (retireCompleted (track_previous_batch (tickBatch s))))
    unfold stepBody
    rw [hat, hgt]
    rfl
  refine ⟨rfl, ?_, le_maxOr0 _, maxOr0_mem _, hbody, ?_⟩
  · intro h; rw [h]; rfl
  · have hstep : (step k p b s).currentTime
        = (stepBody k p b s).currentTime + get_current_batch_duration (stepBody k p b s) := rfl
    rw [hstep, hbody]

/-- C2 witness, instantiated at `c2State` (one prefilling slot with chunked
per-step duration `2`, one decoding slot with `itl = 5`): the decoding
maximum `5` is attained and bounds the list, and a `batchGen`/`static` step
from `c2State` adds the post-assignment duration to the clock. -/
theorem C2_witness :
    ((get_decoding_requests c2State).map Sim.Request.itl ≠ []
      → maxOr0 ((get_decoding_requests c2State).map Sim.Request.itl)
          ∈ (get_decoding_requests c2State).map Sim.Request.itl)
    ∧ (step (.batchGen 1) {} .static c2State).currentTime
        = c2State.currentTime
          + get_current_batch_duration (stepBody (.batchGen 1) {} .static c2State) := by
  have h := C2_batch_duration (.batchGen 1) {} .static c2State
  exact ⟨h.2.2.2.1, h.2.2.2.2.2⟩

/-- C4: `IFBatcherWithOnePrefillOnly.add_requests` never assigns while some
batch request is in prefill (the engine state is returned untouched), and
otherwise it assigns at most one request — taken from the queue, placed into
a currently-empty slot — so, the queue holding only zero-token requests (as
it always does in a run), at most one slot transitions from empty to prefill
per step. -/
theorem C4_one_prefill_only (s : Sim.EngineState) :
    (get_prefilling_requests s ≠ [] → add_requests .ifbOnePrefill s = s)
    ∧ ∃ pairs : List (ℕ × Sim.Request),
        (add_requests .ifbOnePrefill s).currentBatch = s.currentBatch ++ pairs
        ∧ pairs.length ≤ 1
        ∧ (∀ pr ∈ pairs, pr.1 ∈ get_empty_slots s
            ∧ ∃ r ∈ s.queue, pr.2 = { r with started_at := some s.currentTime })
        ∧ ((∀ r ∈ s.queue, r.tokens_generated = 0) →
            ∀ pr ∈ pairs, pr.2.is_in_prefill = true) := by
  by_cases hpre : get_prefilling_requests s ≠ []
  · refine ⟨fun _ => by simp [add_requests, hpre], ⟨[], ?_, ?_, ?_, ?_⟩⟩
    · simp [add_requests, hpre]
    · simp
    · simp
    · simp
  · refine ⟨fun h => absurd h hpre, ?_⟩
    cases hes : get_empty_slots s with
    | nil =>
      refine ⟨[], ?_, by simp, by simp, by simp⟩
      simp [add_requests, hpre, hes]
    | cons slot restSlots =>
      cases hq : s.queue with
      | nil =>
        refine ⟨[], ?_, by simp, by simp, by simp⟩
        simp [add_requests, hpre, hes, hq]
      | cons r q =>
        have harr : add_requests .ifbOnePrefill s
            = assign_request_to_slot { s with queue := q } r slot := by
          simp [add_requests, hpre, hes, hq]
        refine ⟨[(slot, { r with started_at := some s.currentTime })], ?_, by simp, ?_, ?_⟩
        · rw [harr]; rfl
        · intro pr hpr
          rcases List.mem_cons.mp hpr with rfl | hpr
          · exact ⟨List.mem_cons_self _ _, r, List.mem_cons_self r q, rfl⟩
          · simp at hpr
        · intro hzero pr hpr
          rcases List.mem_cons.mp hpr with rfl | hpr
          · have : r.tokens_generated = 0 := hzero r (List.mem_cons_self r q)
            simp [Request.is_in_prefill, this]
          · simp at hpr
/-- C4 witness: at `c2State` a batch request is still prefilling, so the
one-prefill batcher assigns nothing and the batch grows by at most one. -/
theorem C4_witness :
    add_requests .ifbOnePrefill c2State = c2State
    ∧ ∃ pairs : List (ℕ × Sim.Request),
        (add_requests .ifbOnePrefill c2State).currentBatch
          = c2State.currentBatch ++ pairs ∧ pairs.length ≤ 1 := by
  have h := C4_one_prefill_only c2State
  refine ⟨h.1 (by decide), ?_⟩
  obtain ⟨pairs, h1, h2, _⟩ := h.2
  exact ⟨pairs, h1, h2⟩

/-- C5 (amended): `ConcurrentLoadGenerator.generate_load` appends exactly
`max(target_concurrency - occupied - queued, 0)` requests (`Int.toNat` is
that clamp) and touches no slot; and provided the pre-call state does not
already exceed the target — the situation every run of the generator
maintains — the post-call `len(queue) + len(occupied_slots)` stays at most
`target_concurrency`.  (Unconditionally the claim is false: the generator
cannot shrink an already-overfull state; see the counterexample.) -/
theorem C5_concurrent_amended (p : Sim.GenParams) (tc : ℕ) (s : Sim.EngineState) :
    (∃ new : List Sim.Request,
        (generate_load (.concurrent tc) p s).queue = s.queue ++ new
        ∧ new.length
            = ((tc : ℤ) - (get_occupied_slots s).length - s.queue.length).toNat)
    ∧ (generate_load (.concurrent tc) p s).currentBatch = s.currentBatch
    ∧ (s.queue.length + (get_occupied_slots s).length ≤ tc →
        (generate_load (.concurrent tc) p s).queue.length
          + (get_occupied_slots (generate_load (.concurrent tc) p s)).length ≤ tc) := by
  obtain ⟨new, h1, h2, hlen, h4, h5, h6, h7, h8, h9, _⟩ :=
    add_n_spec p ((tc : ℤ) - (get_occupied_slots s).length - s.queue.length).toNat s
  have harr : generate_load (.concurrent tc) p s
      = { add_n_requests_to_queue p s
            ((tc : ℤ) - (get_occupied_slots s).length - s.queue.length).toNat with
          lastGenerationTime :=
            (add_n_requests_to_queue p s
              ((tc : ℤ) - (get_occupied_slots s).length - s.queue.length).toNat).currentTime } := rfl
  have hq : (generate_load (.concurrent tc) p s).queue = s.queue ++ new := by
    rw [harr]; exact h1
  have hb : (generate_load (.concurrent tc) p s).currentBatch = s.currentBatch := by
    rw [harr]; exact h5
  refine ⟨⟨new, hq, hlen⟩, hb, ?_⟩
  intro hle
  have hocc : get_occupied_slots (generate_load (.concurrent tc) p s)
      = get_occupied_slots s := by
    unfold get_occupied_slots
    rw [hb]
  rw [hocc, hq]
  simp only [List.length_append]
  rw [hlen]
  omega

/-- C5, counterexample to the claim as frozen: at `c5State` (two queued
requests, no occupied slot, `target_concurrency = 1`) the generator appends
`max(1 - 0 - 2, 0) = 0` requests, and immediately after the call
`len(queue) + len(occupied_slots) = 2 > 1 = target_concurrency`. -/
theorem C5_counterexample :
    (generate_load (.concurrent 1) {} c5State).queue.length
        + (get_occupied_slots (generate_load (.concurrent 1) {} c5State)).length = 2
    ∧ ¬((generate_load (.concurrent 1) {} c5State).queue.length
        + (get_occupied_slots (generate_load (.concurrent 1) {} c5State)).length
          ≤ 1) := by
  decide

/-- C5 witness: from the fresh engine with `target_concurrency = 2` the
pre-call total `0` is within the target, and the theorem yields the
post-call bound. -/
theorem C5_witness :
    (initState 1 (fun _ => 4)).queue.length
        + (get_occupied_slots (initState 1 (fun _ => 4))).length ≤ 2
    ∧ (generate_load (.concurrent 2) {} (initState 1 (fun _ => 4))).queue.length
        + (get_occupied_slots (generate_load (.concurrent 2) {} (initState 1 (fun _ => 4)))).length
          ≤ 2 :=
  ⟨by decide,
   (C5_concurrent_amended {} 2 (initState 1 (fun _ => 4))).2.2 (by decide)⟩

/-- A `≤`-chain starting at `t` ends at least at `t`. -/
theorem chain_le_getLastD :
    ∀ (rest : List ℚ) (t : ℚ), List.Chain' (· ≤ ·) (t :: rest) → t ≤ rest.getLastD t := by
  intro rest
  induction rest with
  | nil => intro t _; simp
  | cons u us ih =>
    intro t h
    rw [List.getLastD_cons]
    have h1 := List.chain'_cons.mp h
    exact le_trans h1.1 (ih u h1.2)

/-- One `RequestRateLoadGenerator.generate_load` call at clock time `t`
appends `(t // (1/rate) - last // (1/rate)).toNat` requests and advances
`last_generation_time` to `t`. -/
theorem rr_call_spec (rate : ℚ) (p : Sim.GenParams) (s : Sim.EngineState) (t : ℚ) :
    (generate_load (.requestRate rate) p { s with currentTime := t }).queue.length
      = s.queue.length + (⌊t / (1 / rate)⌋ - ⌊s.lastGenerationTime / (1 / rate)⌋).toNat
    ∧ (generate_load (.requestRate rate) p { s with currentTime := t }).lastGenerationTime
      = t := by
  obtain ⟨new, h1, h2, h3, h4, h5, h6, h7, h8, h9, _⟩ :=
    add_n_spec p (⌊t / (1 / rate)⌋ - ⌊s.lastGenerationTime / (1 / rate)⌋).toNat
      { s with currentTime := t }
  have harr : generate_load (.requestRate rate) p { s with currentTime := t }
      = { add_n_requests_to_queue p { s with currentTime := t }
            (⌊t / (1 / rate)⌋ - ⌊s.lastGenerationTime / (1 / rate)⌋).toNat with
          lastGenerationTime :=
            (add_n_requests_to_queue p { s with currentTime := t }
              (⌊t / (1 / rate)⌋ - ⌊s.lastGenerationTime / (1 / rate)⌋).toNat).currentTime } := rfl
  constructor
  · rw [harr]
    show (add_n_requests_to_queue p { s with currentTime := t }
        (⌊t / (1 / rate)⌋ - ⌊s.lastGenerationTime / (1 / rate)⌋).toNat).queue.length = _
    rw [h1]
    simp [h3]
  · rw [harr]
    show (add_n_requests_to_queue p { s with currentTime := t }
        (⌊t / (1 / rate)⌋ - ⌊s.lastGenerationTime / (1 / rate)⌋).toNat).currentTime = t
    rw [h6]

/-- The telescoping invariant behind C6: driving the request-rate generator
through any `≤`-chain of call times starting at the stored
`last_generation_time` grows the queue by exactly the difference of the two
endpoint floor counters. -/
theorem rrRun_len (rate : ℚ) (p : Sim.GenParams) (hr : 0 < rate) :
    ∀ (ts : List ℚ) (s : Sim.EngineState),
      List.Chain' (· ≤ ·) (s.lastGenerationTime :: ts) →
      (rrRun rate p ts s).queue.length
        = s.queue.length
          + (⌊(ts.getLastD s.lastGenerationTime) / (1 / rate)⌋
              - ⌊s.lastGenerationTime / (1 / rate)⌋).toNat := by
  intro ts
  induction ts with
  | nil =>
    intro s _
    simp [rrRun]
  | cons t rest ih =>
    intro s hchain
    have hchain1 := List.chain'_cons.mp hchain
    have hat : s.lastGenerationTime ≤ t := hchain1.1
    obtain ⟨hlen1, hlast1⟩ := rr_call_spec rate p s t
    have hrw : rrRun rate p (t :: rest) s
        = rrRun rate p rest (generate_load (.requestRate rate) p { s with currentTime := t }) := rfl
    have hchain2 : List.Chain'  (· ≤ ·)
        ((generate_load (.requestRate rate) p { s with currentTime := t }).lastGenerationTime :: rest) := by
      rw [hlast1]
      exact hchain1.2
    have hih := ih (generate_load (.requestRate rate) p { s with currentTime := t }) hchain2
    rw [hrw, hih, hlen1, hlast1, List.getLastD_cons]
    have hge : (0 : ℚ) < 1 / rate := by positivity
    have hfl1 : ⌊s.lastGenerationTime / (1 / rate)⌋ ≤ ⌊t / (1 / rate)⌋ :=
      Int.floor_le_floor (div_le_div_of_nonneg_right hat hge.le)
    have hlt : t ≤ rest.getLastD t := chain_le_getLastD rest t hchain1.2
    have hfl2 : ⌊t / (1 / rate)⌋ ≤ ⌊rest.getLastD t / (1 / rate)⌋ :=
      Int.floor_le_floor (div_le_div_of_nonneg_right hlt hge.le)
    omega

/-- C6: for every `request_rate > 0` and every non-decreasing sequence of
call times starting from `last_generation_time = 0` (the initial engine
state), the cumulative number of requests `RequestRateLoadGenerator` has
enqueued after the call at the last time `t` is `⌊t / (1/rate)⌋`,
independently of the intermediate call times — the per-call counts
telescope. -/
theorem C6_request_rate_cumulative (rate : ℚ) (p : Sim.GenParams)
    (ts : List ℚ) (mbs : ℕ) (rand : ℕ → ℚ) (hr : 0 < rate)
    (hchain : List.Chain' (· ≤ ·) (0 :: ts)) :
    (rrRun rate p ts (initState mbs rand)).queue.length
      = (⌊(ts.getLastD 0) / (1 / rate)⌋).toNat := by
  have h := rrRun_len rate p hr ts (initState mbs rand)
      (by simpa [initState] using hchain)
  simpa [initState] using h

/-- C6 witness: `request_rate = 460/1000`, calls at times `1` and `3`:
cumulatively `⌊3 / (1000/460)⌋ = 1` request. -/
theorem C6_witness :
    (0 : ℚ) < 460 / 1000
    ∧ List.Chain' (· ≤ ·) [(0 : ℚ), 1, 3]
    ∧ (rrRun (460 / 1000) {} [1, 3] (initState 1 (fun _ => 4))).queue.length
        = (⌊(([1, 3] : List ℚ).getLastD 0) / (1 / (460 / 1000))⌋).toNat := by
  refine ⟨by norm_num, ?_, ?_⟩
  · simp [List.chain'_cons]
  · exact C6_request_rate_cumulative (460 / 1000) {} [1, 3] 1 (fun _ => 4)
      (by norm_num) (by simp [List.chain'_cons])

/-- Phases 1-5 of the loop body never move the clock (shared helper). -/
theorem stepBody_currentTime (k : Sim.LoadGenKind) (p : Sim.GenParams)
    (b : Sim.BatcherKind) (s : Sim.EngineState) :
    (stepBody k p b s).currentTime = s.currentTime := by
  obtain ⟨new, _, _, _, _, hgt, _, _, _⟩ :=
    generate_load_spec k p (retireCompleted (track_previous_batch (tickBatch s)))
  obtain ⟨kk, pairs, _, _, _, _, hat, _⟩ :=
    add_requests_spec b
      (generate_load k p (retireCompleted (track_previous_batch (tickBatch s))))
  unfold stepBody
  rw [hat, hgt]
  rfl

/-- The step duration is floored at `1.0` (shared helper). -/
theorem one_le_batch_duration (s : Sim.EngineState) :
    1 ≤ get_current_batch_duration s :=
  le_max_right _ 1

/-- C9: `Engine.run(time_limit)` terminates.  Each loop iteration advances
`current_time` by at least `1.0` (the duration floor), so
`⌈time_limit - current_time⌉₊` iterations of fuel always drive the loop to
completion (`current_time ≥ time_limit` on return); and once
`current_time ≥ time_limit` the loop issues no further steps at all. -/
theorem C9_run_terminates (k : Sim.LoadGenKind) (p : Sim.GenParams)
    (b : Sim.BatcherKind) (limit : ℚ) (s : Sim.EngineState) :
    (∀ fuel, limit ≤ s.currentTime → run k p b limit fuel s = s)
    ∧ s.currentTime + 1 ≤ (step k p b s).currentTime
    ∧ limit ≤ (run k p b limit ⌈limit - s.currentTime⌉₊ s).currentTime := by
  have hstep : ∀ s' : Sim.EngineState,
      s'.currentTime + 1 ≤ (step k p b s').currentTime := by
    intro s'
    have h1 : (step k p b s').currentTime
        = (stepBody k p b s').currentTime + get_current_batch_duration (stepBody k p b s') := rfl
    rw [h1, stepBody_currentTime]
    exact add_le_add_left (one_le_batch_duration _) _
  have key : ∀ (n : ℕ) (s' : Sim.EngineState), ⌈limit - s'.currentTime⌉₊ ≤ n →
      limit ≤ (run k p b limit n s').currentTime := by
    intro n
    induction n with
    | zero =>
      intro s' h
      have h0 : limit - s'.currentTime ≤ 0 := by
        by_contra hpos
        push_neg at hpos
        have := Nat.ceil_pos.mpr hpos
        omega
      show limit ≤ s'.currentTime
      linarith
    | succ n ih =>
      intro s' h
      by_cases hlt : s'.currentTime < limit
      · have hrun : run k p b limit (n + 1) s' = run k p b limit n (step k p b s') := by
          simp [run, hlt]
        rw [hrun]
        apply ih
        apply Nat.ceil_le.mpr
        have h3 : limit - s'.currentTime ≤ (⌈limit - s'.currentTime⌉₊ : ℚ) := Nat.le_ceil _
        have h4 : (⌈limit - s'.currentTime⌉₊ : ℚ) ≤ ((n : ℚ) + 1) := by
          exact_mod_cast h
        have h5 := hstep s'
        linarith
      · have hrun : run k p b limit (n + 1) s' = s' := by
          simp [run, hlt]
        rw [hrun]
        linarith [not_lt.mp hlt]
  refine ⟨?_, hstep s, key _ s le_rfl⟩
  intro fuel hle
  cases fuel with
  | zero => rfl
  | succ fuel => simp [run, not_lt.mpr hle]

/-- C9 witness: with `time_limit = 0` the fresh engine takes no step at all
(any fuel), and the computed fuel bound reaches the limit. -/
theorem C9_witness :
    run (.batchGen 1) {} .ifb 0 5 (initState 1 (fun _ => 4))
        = initState 1 (fun _ => 4)
    ∧ (0 : ℚ) ≤ (run (.batchGen 1) {} .ifb 0
        ⌈(0 : ℚ) - (initState 1 (fun _ => 4)).currentTime⌉₊
        (initState 1 (fun _ => 4))).currentTime := by
  have h := C9_run_terminates (.batchGen 1) {} .ifb 0 (initState 1 (fun _ => 4))
  exact ⟨h.1 5 le_rfl, h.2.2⟩

/-- C8: the `queue` property of `DisaggregatedEngine` returns a freshly
allocated list holding `prefill_queue + decode_queue` (a reference distinct
from both queue objects), so mutating it — in particular the append the base
`LoadGenerator.generate_load` performs — leaves `prefill_queue`,
`decode_queue`, `prefill_slots`, `decode_slots` and `completed_requests`
unchanged, and the generated request is never owned by the engine. -/
theorem C8_disagg_queue_fresh (p : Sim.GenParams) (tgt : ℕ) (s : Sim.DisaggState)
    (hp : s.prefillQueueRef < s.nextRef) (hd : s.decodeQueueRef < s.nextRef)
    (htags : ∀ r ∈ s.ownedRequests, r.tag < s.nextTag) :
    ((s.queueProperty).2.heap (s.queueProperty).1
        = s.prefill_queue ++ s.decode_queue)
    ∧ (s.queueProperty).1 ≠ s.prefillQueueRef
    ∧ (s.queueProperty).1 ≠ s.decodeQueueRef
    ∧ (disaggGenerateLoad p tgt s).prefill_queue = s.prefill_queue
    ∧ (disaggGenerateLoad p tgt s).decode_queue = s.decode_queue
    ∧ (disaggGenerateLoad p tgt s).prefill_slots = s.prefill_slots
    ∧ (disaggGenerateLoad p tgt s).decode_slots = s.decode_slots
    ∧ (disaggGenerateLoad p tgt s).completed_requests = s.completed_requests
    ∧ (∀ r ∈ (disaggGenerateLoad p tgt s).ownedRequests, r.tag ≠ s.nextTag) := by
  have hpne : s.nextRef ≠ s.prefillQueueRef := Nat.ne_of_gt hp
  have hdne : s.nextRef ≠ s.decodeQueueRef := Nat.ne_of_gt hd
  have hfresh : (s.queueProperty).2.heap (s.queueProperty).1
      = s.prefill_queue ++ s.decode_queue := by
    simp [DisaggState.queueProperty]
  have hpq : (disaggGenerateLoad p tgt s).prefill_queue = s.prefill_queue := by
    simp [disaggGenerateLoad, DisaggState.queueProperty, DisaggState.prefill_queue,
      Function.update_noteq hpne.symm]
  have hdq : (disaggGenerateLoad p tgt s).decode_queue = s.decode_queue := by
    simp [disaggGenerateLoad, DisaggState.queueProperty, DisaggState.decode_queue,
      Function.update_noteq hdne.symm]
  have hps : (disaggGenerateLoad p tgt s).prefill_slots = s.prefill_slots := rfl
  have hds : (disaggGenerateLoad p tgt s).decode_slots = s.decode_slots := rfl
  have hcr : (disaggGenerateLoad p tgt s).completed_requests = s.completed_requests := rfl
  refine ⟨hfresh, hpne, hdne, hpq, hdq, hps, hds, hcr, ?_⟩
  have howned : (disaggGenerateLoad p tgt s).ownedRequests = s.ownedRequests := by
    unfold DisaggState.ownedRequests
    rw [hpq, hdq, hps, hds, hcr]
  rw [howned]
  intro r hr
  exact Nat.ne_of_lt (htags r hr)

/-- C8 witness: at `c8State` the append leaves both queues (and all owned
requests) untouched and the new request is not owned. -/
theorem C8_witness :
    (disaggGenerateLoad {} 4 c8State).prefill_queue = c8State.prefill_queue
    ∧ (disaggGenerateLoad {} 4 c8State).decode_queue = c8State.decode_queue
    ∧ (∀ r ∈ (disaggGenerateLoad {} 4 c8State).ownedRequests,
        r.tag ≠ c8State.nextTag) := by
  have h := C8_disagg_queue_fresh {} 4 c8State (by decide) (by decide) (by decide)
  exact ⟨h.2.2.2.1, h.2.2.2.2.1, h.2.2.2.2.2.2.2.2⟩

/-- Combined specification of the tick → metrics → retirement prefix of one
loop iteration (phases 1-3), under the batch half of the run invariant: the
queue is untouched, the surviving batch requests are again strictly
incomplete, the latency log grows by `goodEntry`s only, and the multiset of
ghost tags across queue/batch/log is preserved — a request sampled for the
log is exactly one retired from the batch in the same phase. -/
theorem phaseA_spec (s : Sim.EngineState)
    (hb : ∀ pr ∈ s.currentBatch,
        pr.2.tokens_generated < pr.2.target_output_len_tokens
        ∧ pr.2.added_to_queue_at.isSome = true) :
    (retireCompleted (track_previous_batch (tickBatch s))).queue = s.queue
    ∧ (∀ pr ∈ (retireCompleted (track_previous_batch (tickBatch s))).currentBatch,
        pr.2.tokens_generated < pr.2.target_output_len_tokens
        ∧ pr.2.added_to_queue_at.isSome = true)
    ∧ (∃ newE, (retireCompleted (track_previous_batch (tickBatch s))).e2e_latency
          = s.e2e_latency ++ newE ∧ ∀ e ∈ newE, goodEntry e)
    ∧ ((tagsOf (retireCompleted (track_previous_batch (tickBatch s))) : Multiset ℕ)
        = (tagsOf s : Multiset ℕ))
    ∧ (retireCompleted (track_previous_batch (tickBatch s))).nextTag = s.nextTag
    ∧ (retireCompleted (track_previous_batch (tickBatch s))).currentTime = s.currentTime
    ∧ (retireCompleted (track_previous_batch (tickBatch s))).maxBatchSize = s.maxBatchSize
    ∧ (retireCompleted (track_previous_batch (tickBatch s))).lastGenerationTime
        = s.lastGenerationTime := by
  have hmem1 : ∀ pr ∈ s.currentBatch.map (fun pr => (pr.1, pr.2.tick)),
      pr.2.tokens_generated ≤ pr.2.target_output_len_tokens
      ∧ pr.2.added_to_queue_at.isSome = true := by
    intro pr hpr
    obtain ⟨pr0, hpr0, rfl⟩ := List.mem_map.mp hpr
    have h0 := hb pr0 hpr0
    have tf := tick_facts pr0.2
    refine ⟨?_, by rw [tf.2.2.1]; exact h0.2⟩
    have h1 := h0.1
    have h2 := tf.2.2.2.2
    have h3 := tf.2.1
    simp only [h3] at *
    omega
  have hbatch : (retireCompleted (track_previous_batch (tickBatch s))).currentBatch
      = (s.currentBatch.map (fun pr => (pr.1, pr.2.tick))).filter
          (fun pr => decide (pr.2.tokens_generated < pr.2.target_output_len_tokens)) := rfl
  have he2e : (retireCompleted (track_previous_batch (tickBatch s))).e2e_latency
      = s.e2e_latency
        ++ ((s.currentBatch.map (fun pr => (pr.1, pr.2.tick))).filter
              (fun pr => pr.2.tokens_generated == pr.2.target_output_len_tokens)).map
            (fun pr => (pr.2, s.currentTime,
              s.currentTime - pr.2.added_to_queue_at.getD 0)) := rfl
  refine ⟨rfl, ?_, ?_, ?_, rfl, rfl, rfl, rfl⟩
  · intro pr hpr
    rw [hbatch] at hpr
    have hf := List.of_mem_filter hpr
    have hm := List.mem_of_mem_filter hpr
    exact ⟨by simpa using hf, (hmem1 pr hm).2⟩
  · refine ⟨_, he2e, ?_⟩
    intro e he
    obtain ⟨pr, hpr, rfl⟩ := List.mem_map.mp he
    have hf := List.of_mem_filter hpr
    have hm := List.mem_of_mem_filter hpr
    have heqt : pr.2.tokens_generated = pr.2.target_output_len_tokens := by
      simpa using hf
    obtain ⟨a, ha⟩ := Option.isSome_iff_exists.mp (hmem1 pr hm).2
    exact ⟨heqt, a, ha, by rw [ha, Option.getD_some]⟩
  · -- multiset of tags is preserved: sampled tags = retired tags
    have hsplitL : List.Perm
        ((((s.currentBatch.map (fun pr => (pr.1, pr.2.tick))).filter
            (fun pr => decide (pr.2.tokens_generated < pr.2.target_output_len_tokens))).map
              (fun pr => pr.2.tag))
          ++ (((s.currentBatch.map (fun pr => (pr.1, pr.2.tick))).filter
            (fun pr => pr.2.tokens_generated == pr.2.target_output_len_tokens)).map
              (fun pr => pr.2.tag)))
        ((s.currentBatch.map (fun pr => (pr.1, pr.2.tick))).map (fun pr => pr.2.tag)) := by
      have hcmpl : (s.currentBatch.map (fun pr => (pr.1, pr.2.tick))).filter
            (fun pr => pr.2.tokens_generated == pr.2.target_output_len_tokens)
          = (s.currentBatch.map (fun pr => (pr.1, pr.2.tick))).filter
            (fun pr =>
              !(decide (pr.2.tokens_generated < pr.2.target_output_len_tokens))) := by
        apply List.filter_congr
        intro pr hpr
        have hle := (hmem1 pr hpr).1
        by_cases hlt : pr.2.tokens_generated < pr.2.target_output_len_tokens
        · have hne : pr.2.tokens_generated ≠ pr.2.target_output_len_tokens :=
            Nat.ne_of_lt hlt
          simp [hlt, hne]
        · have heq : pr.2.tokens_generated = pr.2.target_output_len_tokens :=
            le_antisymm hle (not_lt.mp hlt)
          simp [hlt, heq]
      rw [hcmpl, ← List.map_append]
      exact (List.filter_append_perm _ _).map _
    have hB1tags : (s.currentBatch.map (fun pr => (pr.1, pr.2.tick))).map
          (fun pr => pr.2.tag)
        = s.currentBatch.map (fun pr => pr.2.tag) := by
      rw [List.map_map]
      apply List.map_congr_left
      intro pr _
      exact (tick_facts pr.2).1
    have hsplitM : (↑((((s.currentBatch.map (fun pr => (pr.1, pr.2.tick))).filter
            (fun pr => decide (pr.2.tokens_generated < pr.2.target_output_len_tokens))).map
              (fun pr => pr.2.tag)) : List ℕ) : Multiset ℕ)
          + ↑((((s.currentBatch.map (fun pr => (pr.1, pr.2.tick))).filter
            (fun pr => pr.2.tokens_generated == pr.2.target_output_len_tokens)).map
              (fun pr => pr.2.tag)) : List ℕ)
        = ↑(s.currentBatch.map (fun pr => pr.2.tag)) := by
      rw [← hB1tags]
      exact Multiset.coe_eq_coe.mpr hsplitL
    show (↑(tagsOf (retireCompleted (track_previous_batch (tickBatch s)))) : Multiset ℕ)
        = ↑(tagsOf s)
    unfold tagsOf
    rw [hbatch, he2e]
    have hq2 : (retireCompleted (track_previous_batch (tickBatch s))).queue = s.queue := rfl
    rw [hq2, List.map_append, List.map_map]
    have hcomp : ((fun e : Sim.Request × ℚ × ℚ => e.1.tag) ∘
          (fun pr : ℕ × Sim.Request => (pr.2, s.currentTime,
            s.currentTime - pr.2.added_to_queue_at.getD 0)))
        = fun pr : ℕ × Sim.Request => pr.2.tag := rfl
    rw [hcomp]
    have coeapp : ∀ (l l' : List ℕ), ((l ++ l' : List ℕ) : Multiset ℕ) = ↑l + ↑l' :=
      fun _ _ => rfl
    simp only [coeapp]
    rw [← hsplitM]
    abel

/-- Invariant transport through phases 1-5 of one loop iteration: fresh
requests get the next consecutive ghost tags, the surviving/assigned batch
requests are strictly incomplete and enqueued, queued requests stay fresh,
the latency log grows by `goodEntry`s only, and the tag multiset grows by
exactly the fresh tags. -/
theorem stepBody_spec (k : Sim.LoadGenKind) (p : Sim.GenParams)
    (b : Sim.BatcherKind) (s : Sim.EngineState)
    (hb : ∀ pr ∈ s.currentBatch,
        pr.2.tokens_generated < pr.2.target_output_len_tokens
        ∧ pr.2.added_to_queue_at.isSome = true)
    (hq : ∀ r ∈ s.queue,
        r.tokens_generated = 0 ∧ 1 ≤ r.target_output_len_tokens
        ∧ r.added_to_queue_at.isSome = true) :
    ∃ new : List Sim.Request,
      new.map Sim.Request.tag = List.range' s.nextTag new.length
      ∧ (stepBody k p b s).nextTag = s.nextTag + new.length
      ∧ (∀ pr ∈ (stepBody k p b s).currentBatch,
          pr.2.tokens_generated < pr.2.target_output_len_tokens
          ∧ pr.2.added_to_queue_at.isSome = true)
      ∧ (∀ r ∈ (stepBody k p b s).queue,
          r.tokens_generated = 0 ∧ 1 ≤ r.target_output_len_tokens
          ∧ r.added_to_queue_at.isSome = true)
      ∧ (∃ newE, (stepBody k p b s).e2e_latency = s.e2e_latency ++ newE
          ∧ ∀ e ∈ newE, goodEntry e)
      ∧ (↑(tagsOf (stepBody k p b s)) : Multiset ℕ)
          = ↑(tagsOf s) + ↑(new.map Sim.Request.tag) := by
  obtain ⟨haq, hab, ⟨newE, hae, haegood⟩, hatags, hatag, hatime, _, _⟩ :=
    phaseA_spec s hb
  obtain ⟨new, hgq, hgtags, hgprops, hgb, hgtime, hge, hgtag, _⟩ :=
    generate_load_spec k p (retireCompleted (track_previous_batch (tickBatch s)))
  obtain ⟨kk, pairs, hkk, hrq, hrb, hrsnd, hrtime, hre, hrtag, _, _⟩ :=
    add_requests_spec b
      (generate_load k p (retireCompleted (track_previous_batch (tickBatch s))))
  have hunfold : stepBody k p b s
      = add_requests b
          (generate_load k p (retireCompleted (track_previous_batch (tickBatch s)))) := rfl
  refine ⟨new, ?_, ?_, ?_, ?_, ?_, ?_⟩
  · rw [hatag] at hgtags
    exact hgtags
  · rw [hunfold, hrtag, hgtag, hatag]
  · intro pr hpr
    rw [hunfold, hrb, hgb] at hpr
    rcases List.mem_append.mp hpr with h1 | h2
    · exact hab pr h1
    · have hsnd : pr.2 ∈ pairs.map Prod.snd := List.mem_map_of_mem Prod.snd h2
      rw [hrsnd] at hsnd
      obtain ⟨r, hrm, hreq⟩ := List.mem_map.mp hsnd
      have hrmem : r ∈ (generate_load k p
          (retireCompleted (track_previous_batch (tickBatch s)))).queue :=
        List.take_subset kk _ hrm
      rw [hgq] at hrmem
      have hprops : r.tokens_generated = 0 ∧ 1 ≤ r.target_output_len_tokens
          ∧ r.added_to_queue_at.isSome = true := by
        rcases List.mem_append.mp hrmem with h3 | h4
        · rw [haq] at h3
          exact hq r h3
        · obtain ⟨ht0, ht1, ha2, _⟩ := hgprops r h4
          exact ⟨ht0, ht1, by rw [ha2]; rfl⟩
      constructor
      · rw [← hreq]
        show r.tokens_generated < r.target_output_len_tokens
        omega
      · rw [← hreq]
        show r.added_to_queue_at.isSome = true
        exact hprops.2.2
  · intro r hr
    rw [hunfold, hrq] at hr
    have hr2 := List.mem_of_mem_drop hr
    rw [hgq] at hr2
    rcases List.mem_append.mp hr2 with h3 | h4
    · rw [haq] at h3
      exact hq r h3
    · obtain ⟨ht0, ht1, ha2, _⟩ := hgprops r h4
      exact ⟨ht0, ht1, by rw [ha2]; rfl⟩
  · refine ⟨newE, ?_, haegood⟩
    rw [hunfold, hre, hge, hae]
  · have hpairs_tags : pairs.map (fun pr => pr.2.tag)
        = ((generate_load k p
            (retireCompleted (track_previous_batch (tickBatch s)))).queue.take kk).map
              Sim.Request.tag := by
      have h1 : pairs.map (fun pr : ℕ × Sim.Request => pr.2.tag)
          = (pairs.map Prod.snd).map Sim.Request.tag := by
        rw [List.map_map]; rfl
      rw [h1, hrsnd, List.map_map]
      apply List.map_congr_left
      intro r _
      rfl
    have hsplitq : (↑(((generate_load k p
            (retireCompleted (track_previous_batch (tickBatch s)))).queue.drop kk).map
              Sim.Request.tag) : Multiset ℕ)
          + ↑(((generate_load k p
            (retireCompleted (track_previous_batch (tickBatch s)))).queue.take kk).map
              Sim.Request.tag)
        = ↑((generate_load k p
            (retireCompleted (track_previous_batch (tickBatch s)))).queue.map
              Sim.Request.tag) := by
      have hperm : List.Perm
          (((generate_load k p
              (retireCompleted (track_previous_batch (tickBatch s)))).queue.drop kk).map
                Sim.Request.tag
            ++ ((generate_load k p
              (retireCompleted (track_previous_batch (tickBatch s)))).queue.take kk).map
                Sim.Request.tag)
          ((generate_load k p
              (retireCompleted (track_previous_batch (tickBatch s)))).queue.map
                Sim.Request.tag) := by
        rw [← List.map_append]
        refine List.Perm.map _ ?_
        have h2 := List.take_append_drop kk
          (generate_load k p (retireCompleted (track_previous_batch (tickBatch s)))).queue
        have h3 : List.Perm
            ((generate_load k p
              (retireCompleted (track_previous_batch (tickBatch s)))).queue.take kk
              ++ (generate_load k p
              (retireCompleted (track_previous_batch (tickBatch s)))).queue.drop kk)
            (generate_load k p
              (retireCompleted (track_previous_batch (tickBatch s)))).queue := by
          rw [h2]
        exact (List.perm_append_comm).trans h3
      exact Multiset.coe_eq_coe.mpr hperm
    have hq4tags : (↑((generate_load k p
            (retireCompleted (track_previous_batch (tickBatch s)))).queue.map
              Sim.Request.tag) : Multiset ℕ)
        = ↑((retireCompleted (track_previous_batch (tickBatch s))).queue.map
              Sim.Request.tag)
          + ↑(new.map Sim.Request.tag) := by
      rw [hgq, List.map_append]
      rfl
    have hfinal : (↑(tagsOf (retireCompleted (track_previous_batch (tickBatch s)))) : Multiset ℕ)
        = ↑((retireCompleted (track_previous_batch (tickBatch s))).queue.map
              Sim.Request.tag)
          + ↑((retireCompleted (track_previous_batch (tickBatch s))).currentBatch.map
              (fun pr => pr.2.tag))
          + ↑((retireCompleted (track_previous_batch (tickBatch s))).e2e_latency.map
              (fun e => e.1.tag)) := rfl
    have htop : (↑(tagsOf (stepBody k p b s)) : Multiset ℕ)
        = ↑(((generate_load k p
              (retireCompleted (track_previous_batch (tickBatch s)))).queue.drop kk).map
                Sim.Request.tag)
          + (↑((retireCompleted (track_previous_batch (tickBatch s))).currentBatch.map
              (fun pr => pr.2.tag))
            + ↑(pairs.map (fun pr => pr.2.tag)))
          + ↑((retireCompleted (track_previous_batch (tickBatch s))).e2e_latency.map
              (fun e => e.1.tag)) := by
      rw [hunfold]
      unfold tagsOf
      rw [hrq, hrb, hgb, hre, hge, List.map_append]
      rfl
    calc (↑(tagsOf (stepBody k p b s)) : Multiset ℕ)
        = ↑(((generate_load k p
              (retireCompleted (track_previous_batch (tickBatch s)))).queue.drop kk).map
                Sim.Request.tag)
          + (↑((retireCompleted (track_previous_batch (tickBatch s))).currentBatch.map
              (fun pr => pr.2.tag))
            + ↑(pairs.map (fun pr => pr.2.tag)))
          + ↑((retireCompleted (track_previous_batch (tickBatch s))).e2e_latency.map
              (fun e => e.1.tag)) := htop
      _ = (↑(((generate_load k p
              (retireCompleted (track_previous_batch (tickBatch s)))).queue.drop kk).map
                Sim.Request.tag)
            + ↑(((generate_load k p
              (retireCompleted (track_previous_batch (tickBatch s)))).queue.take kk).map
                Sim.Request.tag))
          + ↑((retireCompleted (track_previous_batch (tickBatch s))).currentBatch.map
              (fun pr => pr.2.tag))
          + ↑((retireCompleted (track_previous_batch (tickBatch s))).e2e_latency.map
              (fun e => e.1.tag)) := by
        rw [hpairs_tags]
        abel
      _ = ↑((generate_load k p
              (retireCompleted (track_previous_batch (tickBatch s)))).queue.map
                Sim.Request.tag)
          + ↑((retireCompleted (track_previous_batch (tickBatch s))).currentBatch.map
              (fun pr => pr.2.tag))
          + ↑((retireCompleted (track_previous_batch (tickBatch s))).e2e_latency.map
              (fun e => e.1.tag)) := by
        rw [hsplitq]
      _ = (↑((retireCompleted (track_previous_batch (tickBatch s))).queue.map
              Sim.Request.tag)
            + ↑(new.map Sim.Request.tag))
          + ↑((retireCompleted (track_previous_batch (tickBatch s))).currentBatch.map
              (fun pr => pr.2.tag))
          + ↑((retireCompleted (track_previous_batch (tickBatch s))).e2e_latency.map
              (fun e => e.1.tag)) := by
        rw [hq4tags]
      _ = (↑((retireCompleted (track_previous_batch (tickBatch s))).queue.map
              Sim.Request.tag)
            + ↑((retireCompleted (track_previous_batch (tickBatch s))).currentBatch.map
              (fun pr => pr.2.tag))
            + ↑((retireCompleted (track_previous_batch (tickBatch s))).e2e_latency.map
              (fun e => e.1.tag)))
          + ↑(new.map Sim.Request.tag) := by
        abel
      _ = (↑(tagsOf (retireCompleted (track_previous_batch (tickBatch s)))) : Multiset ℕ)
          + ↑(new.map Sim.Request.tag) := by
        rw [hfinal]
      _ = ↑(tagsOf s) + ↑(new.map Sim.Request.tag) := by
        rw [hatags]

/-- One full loop iteration preserves the run invariant. -/
theorem step_preserves_Inv (k : Sim.LoadGenKind) (p : Sim.GenParams)
    (b : Sim.BatcherKind) (s : Sim.EngineState) (h : Inv s) :
    Inv (step k p b s) := by
  obtain ⟨hb, hq, hnd, hbound, hcompl, hgood⟩ := h
  obtain ⟨new, htags, htag, hbat, hque, ⟨newE, he2e, hegood⟩, hmult⟩ :=
    stepBody_spec k p b s hb hq
  have hfb : (step k p b s).currentBatch = (stepBody k p b s).currentBatch := rfl
  have hfq : (step k p b s).queue = (stepBody k p b s).queue := rfl
  have hfe : (step k p b s).e2e_latency = (stepBody k p b s).e2e_latency := rfl
  have hft : (step k p b s).nextTag = (stepBody k p b s).nextTag := rfl
  have hftags : tagsOf (step k p b s) = tagsOf (stepBody k p b s) := rfl
  refine ⟨?_, ?_, ?_, ?_, ?_, ?_⟩
  · intro pr hpr
    rw [hfb] at hpr
    exact hbat pr hpr
  · intro r hr
    rw [hfq] at hr
    exact hque r hr
  · rw [hftags, ← Multiset.coe_nodup, hmult]
    refine Multiset.nodup_add.mpr
      ⟨Multiset.coe_nodup.mpr hnd,
       Multiset.coe_nodup.mpr (by rw [htags]; exact List.nodup_range' _ _), ?_⟩
    refine Multiset.disjoint_left.mpr ?_
    intro t ht hmemN
    have h1 : t < s.nextTag := hbound t (Multiset.mem_coe.mp ht)
    have h2 : t ∈ new.map Sim.Request.tag := Multiset.mem_coe.mp hmemN
    rw [htags] at h2
    have h3 := (List.mem_range'_1.mp h2).1
    omega
  · intro t ht
    rw [hftags] at ht
    have hm : t ∈ (↑(tagsOf (stepBody k p b s)) : Multiset ℕ) := Multiset.mem_coe.mpr ht
    rw [hmult] at hm
    rw [hft, htag]
    rcases Multiset.mem_add.mp hm with h1 | h2
    · have := hbound t (Multiset.mem_coe.mp h1)
      omega
    · have h3 := Multiset.mem_coe.mp h2
      rw [htags] at h3
      have := (List.mem_range'_1.mp h3).2
      omega
  · intro t ht
    rw [hft, htag] at ht
    rw [hftags]
    have hm : t ∈ (↑(tagsOf (stepBody k p b s)) : Multiset ℕ) := by
      rw [hmult]
      refine Multiset.mem_add.mpr ?_
      by_cases h1 : t < s.nextTag
      · exact Or.inl (Multiset.mem_coe.mpr (hcompl t h1))
      · refine Or.inr (Multiset.mem_coe.mpr ?_)
        rw [htags]
        exact List.mem_range'_1.mpr ⟨not_lt.mp h1, ht⟩
    exact Multiset.mem_coe.mp hm
  · intro e he
    rw [hfe, he2e] at he
    rcases List.mem_append.mp he with h1 | h2
    · exact hgood e h1
    · exact hegood e h2

/-- The run invariant holds along every fuelled execution of `Engine.run`. -/
theorem run_preserves_Inv (k : Sim.LoadGenKind) (p : Sim.GenParams)
    (b : Sim.BatcherKind) (limit : ℚ) :
    ∀ (fuel : ℕ) (s : Sim.EngineState), Inv s → Inv (run k p b limit fuel s) := by
  intro fuel
  induction fuel with
  | zero => intro s h; exact h
  | succ n ih =>
    intro s h
    by_cases hlt : s.currentTime < limit
    · have hrun : run k p b limit (n + 1) s = run k p b limit n (step k p b s) := by
        simp [run, hlt]
      rw [hrun]
      exact ih _ (step_preserves_Inv k p b s h)
    · have hrun : run k p b limit (n + 1) s = s := by
        simp [run, hlt]
      rw [hrun]
      exact h

/-- The freshly constructed engine satisfies the run invariant. -/
theorem initState_Inv (mbs : ℕ) (rand : ℕ → ℚ) : Inv (initState mbs rand) := by
  refine ⟨by simp [initState], by simp [initState], by simp [tagsOf, initState],
    by simp [tagsOf, initState], ?_, by simp [initState]⟩
  intro t ht
  simp [initState] at ht

/-- C3: in every execution of `Engine.run` (any policy pair, any sample
stream, any fuel), each request receives at most one end-to-end latency
sample (the ghost tags in the log are distinct); every recorded sample
snapshots its request exactly at completion
(`tokens_generated = target_output_len_tokens` — the first step at which
this holds, since batch requests are strictly incomplete at every step
boundary, as the third conjunct states) and stores
`current_time − added_to_queue_at`; and every request ever generated is
still queued, still batched, or E2E-sampled — so a request that completed
in a slot (it is neither queued nor batched afterwards) has exactly one
sample. -/
theorem C3_e2e_exactly_once (k : Sim.LoadGenKind) (p : Sim.GenParams)
    (b : Sim.BatcherKind) (limit : ℚ) (fuel mbs : ℕ) (rand : ℕ → ℚ) :
    ((run k p b limit fuel (initState mbs rand)).e2e_latency.map
        (fun e => e.1.tag)).Nodup
    ∧ (∀ e ∈ (run k p b limit fuel (initState mbs rand)).e2e_latency,
        e.1.tokens_generated = e.1.target_output_len_tokens
        ∧ ∃ a, e.1.added_to_queue_at = some a ∧ e.2.2 = e.2.1 - a)
    ∧ (∀ pr ∈ (run k p b limit fuel (initState mbs rand)).currentBatch,
        pr.2.tokens_generated < pr.2.target_output_len_tokens)
    ∧ (∀ t, t < (run k p b limit fuel (initState mbs rand)).nextTag →
        t ∈ (run k p b limit fuel (initState mbs rand)).queue.map Sim.Request.tag
        ∨ t ∈ (run k p b limit fuel (initState mbs rand)).currentBatch.map
            (fun pr => pr.2.tag)
        ∨ t ∈ (run k p b limit fuel (initState mbs rand)).e2e_latency.map
            (fun e => e.1.tag)) := by
  obtain ⟨hb, hq, hnd, hbound, hcompl, hgood⟩ :=
    run_preserves_Inv k p b limit fuel (initState mbs rand) (initState_Inv mbs rand)
  have hshape : tagsOf (run k p b limit fuel (initState mbs rand))
      = ((run k p b limit fuel (initState mbs rand)).queue.map Sim.Request.tag
          ++ (run k p b limit fuel (initState mbs rand)).currentBatch.map
            (fun pr => pr.2.tag))
        ++ (run k p b limit fuel (initState mbs rand)).e2e_latency.map
            (fun e => e.1.tag) := rfl
  refine ⟨?_, fun e he => hgood e he, fun pr hpr => (hb pr hpr).1, ?_⟩
  · rw [hshape] at hnd
    exact List.Nodup.of_append_right hnd
  · intro t ht
    have hm := hcompl t ht
    rw [hshape] at hm
    rcases List.mem_append.mp hm with h1 | h2
    · rcases List.mem_append.mp h1 with h3 | h4
      · exact Or.inl h3
      · exact Or.inr (Or.inl h4)
    · exact Or.inr (Or.inr h2)

/-- One-step symbolic evaluation of the C3/C7 witness run: after the first
loop iteration the engine is exactly `c3State1` (the kernel evaluates every
discrete component; the clock value `0 + max(max(2/1, 0), 1) = 2` is settled
by `norm_num`). -/
theorem step1_eval :
    step (.batchGen 1) cParams .ifb (initState 1 (fun _ => 1)) = c3State1 := by
  have hbatch5 : (stepBody (.batchGen 1) cParams .ifb (initState 1 (fun _ => 1))).currentBatch
      = [(0, cReq0)] := by decide
  have hdur : get_current_batch_duration
      (stepBody (.batchGen 1) cParams .ifb (initState 1 (fun _ => 1))) = 2 := by
    unfold get_current_batch_duration get_prefilling_requests get_decoding_requests
    rw [hbatch5]
    norm_num [cReq0, maxOr0, Sim.Request.is_in_prefill, Sim.Request.get_current_duration]
  have hct : (step (.batchGen 1) cParams .ifb (initState 1 (fun _ => 1))).currentTime = 2 := by
    have h1 : (step (.batchGen 1) cParams .ifb (initState 1 (fun _ => 1))).currentTime
        = (stepBody (.batchGen 1) cParams .ifb (initState 1 (fun _ => 1))).currentTime
          + get_current_batch_duration
              (stepBody (.batchGen 1) cParams .ifb (initState 1 (fun _ => 1))) := rfl
    rw [h1, stepBody_currentTime, hdur]
    norm_num [initState]
  ext : 1 <;> first | exact hct | rfl

/-- Evaluation of the second step of the witness run: the end-to-end latency
log of the full two-step run holds exactly one sample, `(time 2, latency 2)`
for the request with ghost tag `0`. -/
theorem run2_e2e_eval :
    (run (.batchGen 1) cParams .ifb 3 2 (initState 1 (fun _ => 1))).e2e_latency
      = [({ cReq0 with tokens_generated := 1 }, (2 : ℚ), (2 : ℚ))] := by
  have hrun2 : run (.batchGen 1) cParams .ifb 3 2 (initState 1 (fun _ => 1))
      = run (.batchGen 1) cParams .ifb 3 1
          (step (.batchGen 1) cParams .ifb (initState 1 (fun _ => 1))) := rfl
  have hrun1 : run (.batchGen 1) cParams .ifb 3 1 c3State1
      = step (.batchGen 1) cParams .ifb c3State1 := rfl
  rw [hrun2, step1_eval, hrun1]
  have h2 : (step (.batchGen 1) cParams .ifb c3State1).e2e_latency
      = (stepBody (.batchGen 1) cParams .ifb c3State1).e2e_latency := rfl
  rw [h2]
  obtain ⟨_, _, _, _, _, _, hge, _, _⟩ :=
    generate_load_spec (.batchGen 1) cParams
      (retireCompleted (track_previous_batch (tickBatch c3State1)))
  obtain ⟨_, _, _, _, _, _, _, hre, _, _, _⟩ :=
    add_requests_spec .ifb
      (generate_load (.batchGen 1) cParams
        (retireCompleted (track_previous_batch (tickBatch c3State1))))
  have h3 : (stepBody (.batchGen 1) cParams .ifb c3State1).e2e_latency
      = (retireCompleted (track_previous_batch (tickBatch c3State1))).e2e_latency := by
    have hunfold : stepBody (.batchGen 1) cParams .ifb c3State1
        = add_requests .ifb
            (generate_load (.batchGen 1) cParams
              (retireCompleted (track_previous_batch (tickBatch c3State1)))) := rfl
    rw [hunfold, hre, hge]
  rw [h3]
  have h4 : (retireCompleted (track_previous_batch (tickBatch c3State1))).e2e_latency
      = [({ cReq0 with tokens_generated := 1 }, (2 : ℚ),
          (2 : ℚ) - ((some (0 : ℚ)).getD 0))] := rfl
  rw [h4]
  norm_num

/-- C3 witness: the two-step run (`BatchLoadGenerator(initial_batch=1)`,
`IFBatcher`, one slot, constant sample `1` so the target is one token)
records exactly the sample `(time 2, latency 2)` for the request completing
at time `2` after being enqueued at time `0`; the theorem instantiates at
that entry. -/
theorem C3_witness :
    (({ cReq0 with tokens_generated := 1 }, (2 : ℚ), (2 : ℚ))
        ∈ (run (.batchGen 1) cParams .ifb 3 2 (initState 1 (fun _ => 1))).e2e_latency)
    ∧ (({ cReq0 with tokens_generated := 1 } : Sim.Request).tokens_generated
          = ({ cReq0 with tokens_generated := 1 } : Sim.Request).target_output_len_tokens
        ∧ ∃ a, ({ cReq0 with tokens_generated := 1 } : Sim.Request).added_to_queue_at
              = some a
            ∧ (2 : ℚ) = (2 : ℚ) - a) := by
  have hmem : ({ cReq0 with tokens_generated := 1 }, (2 : ℚ), (2 : ℚ))
      ∈ (run (.batchGen 1) cParams .ifb 3 2 (initState 1 (fun _ => 1))).e2e_latency := by
    rw [run2_e2e_eval]
    exact List.mem_singleton.mpr rfl
  exact ⟨hmem,
    (C3_e2e_exactly_once (.batchGen 1) cParams .ifb 3 2 1 (fun _ => 1)).2.1 _ hmem⟩

/-- C7: `tokens_generated` never decreases under `tick` (base or chunked
variant), and during any execution of `Engine.run` it never exceeds
`target_output_len_tokens`: at every step boundary batched requests are
strictly incomplete and queued requests have no tokens at all, and
immediately after the tick phase — the only point where counters move —
every batched request still satisfies
`tokens_generated ≤ target_output_len_tokens`. -/
theorem C7_tokens_monotone_bounded (k : Sim.LoadGenKind) (p : Sim.GenParams)
    (b : Sim.BatcherKind) (limit : ℚ) (fuel mbs : ℕ) (rand : ℕ → ℚ) :
    (∀ r : Sim.Request, r.tokens_generated ≤ r.tick.tokens_generated)
    ∧ (∀ pr ∈ (run k p b limit fuel (initState mbs rand)).currentBatch,
        pr.2.tokens_generated < pr.2.target_output_len_tokens)
    ∧ (∀ r ∈ (run k p b limit fuel (initState mbs rand)).queue,
        r.tokens_generated = 0 ∧ r.tokens_generated ≤ r.target_output_len_tokens)
    ∧ (∀ pr ∈ (tickBatch (run k p b limit fuel (initState mbs rand))).currentBatch,
        pr.2.tokens_generated ≤ pr.2.target_output_len_tokens) := by
  obtain ⟨hb, hq, _, _, _, _⟩ :=
    run_preserves_Inv k p b limit fuel (initState mbs rand) (initState_Inv mbs rand)
  refine ⟨fun r => (tick_facts r).2.2.2.1, fun pr hpr => (hb pr hpr).1, ?_, ?_⟩
  · intro r hr
    obtain ⟨h0, h1, _⟩ := hq r hr
    exact ⟨h0, by omega⟩
  · intro pr hpr
    obtain ⟨pr0, hpr0, rfl⟩ := List.mem_map.mp hpr
    have h0 := (hb pr0 hpr0).1
    have tf := tick_facts pr0.2
    have h2 := tf.2.2.2.2
    have h3 := tf.2.1
    simp only [h3] at *
    omega

/-- C7 witness: after one step of the C3-witness run the single batched
request has `0 < 1` tokens, and ticking never decreases the counter of the
`C1` chunked request. -/
theorem C7_witness :
    ((0 : ℕ), cReq0)
        ∈ (run (.batchGen 1) cParams .ifb 3 1 (initState 1 (fun _ => 1))).currentBatch
    ∧ cReq0.tokens_generated < cReq0.target_output_len_tokens
    ∧ c1Request.tokens_generated ≤ c1Request.tick.tokens_generated := by
  have hmem : ((0 : ℕ), cReq0)
      ∈ (run (.batchGen 1) cParams .ifb 3 1 (initState 1 (fun _ => 1))).currentBatch := by
    decide
  have h := C7_tokens_monotone_bounded (.batchGen 1) cParams .ifb 3 1 1 (fun _ => 1)
  exact ⟨hmem, h.2.1 _ hmem, h.1 c1Request⟩
